import Mathlib

/-
Verification development for the smalld-click conversation bridge
(`smalld_click/smalld_click.py`).

The Python source is shallowly embedded: pure fragments become Lean
functions; the mutable runner / conversation-context state becomes
explicit state passing; the transport (`smalld.post`) becomes a ledger
of outbound calls recorded in the state; fallible code returns
`Except`.  Each definition is named after the Python entity it embeds
and carries a doc comment pointing at the source lines.
-/

set_option autoImplicit false

namespace SmalldClick

/-! ## Python string primitives used by `parse_command` and `flush` -/

/-- Python `str` whitespace (ASCII fragment): the characters removed by
`str.strip()` / `str.lstrip()`.  `Char.ofNat 11` is vertical tab,
`Char.ofNat 12` is form feed. -/
def pyWs (c : Char) : Bool :=
  c = ' ' || c = '\t' || c = '\n' || c = '\r' || c = Char.ofNat 11 || c = Char.ofNat 12

/-- Python `s.lstrip()` on the character list. -/
def pyLstripL (l : List Char) : List Char := l.dropWhile pyWs

/-- Python `s.strip()` on the character list: drop leading and trailing
whitespace. -/
def pyStripL (l : List Char) : List Char :=
  ((l.dropWhile pyWs).reverse.dropWhile pyWs).reverse

/-- Python `s.lstrip()`. -/
def pyLstrip (s : String) : String := String.mk (pyLstripL s.data)

/-- Python `s.strip()`. -/
def pyStrip (s : String) : String := String.mk (pyStripL s.data)

/-- Python `s.startswith(p)`. -/
def startswith (s p : String) : Bool := List.isPrefixOf p.data s.data

/-! ## `shlex.split` (POSIX mode, `whitespace_split=True`)

`parse_command` tokenizes the command text with `shlex.split`, which
raises `ValueError` on an unterminated quote or a trailing escape
character.  The embedding below follows CPython's `shlex.read_token`
state machine specialized to `posix=True`, `whitespace_split=True`,
empty `punctuation_chars`, `quotes = squote/dquote`, `escape = \`,
`escapedquotes = dquote`. -/

/-- The single-quote character. -/
def squoteC : Char := Char.ofNat 39

/-- The backslash escape character. -/
def bslashC : Char := Char.ofNat 92

/-- `shlex` whitespace (`shlex.whitespace = " \t\r\n"`). -/
def shWs (c : Char) : Bool := c = ' ' || c = '\t' || c = '\r' || c = '\n'

/-- States of the `shlex.read_token` automaton:
whitespace, in-word, inside single/double quotes, and the two escape
states remembering the state to return to (`escapedstate` in CPython,
which is either the word state or the double-quote state). -/
inductive ShState where
  | ws
  | word
  | squote
  | dquote
  | escWord
  | escDquote
  deriving DecidableEq

/-- One pass of `shlex.split`: `tok` is the token built so far,
`quoted` is CPython's per-token `quoted` flag (a quoted empty token is
still emitted), `acc` the tokens already produced.  Errors are the
`ValueError`s "No closing quotation" / "No escaped character". -/
def shlexRun : List Char → ShState → String → Bool → List String →
    Except Unit (List String)
  | [], st, tok, quoted, acc =>
    match st with
    | .ws => .ok acc
    | .word => .ok (if tok ≠ "" ∨ quoted then acc ++ [tok] else acc)
    | _ => .error ()
  | c :: rest, st, tok, quoted, acc =>
    match st with
    | .ws =>
      if shWs c then shlexRun rest .ws tok quoted acc
      else if c = squoteC then shlexRun rest .squote tok quoted acc
      else if c = '"' then shlexRun rest .dquote tok quoted acc
      else if c = bslashC then shlexRun rest .escWord tok quoted acc
      else shlexRun rest .word (tok.push c) quoted acc
    | .word =>
      if shWs c then
        shlexRun rest .ws "" false (if tok ≠ "" ∨ quoted then acc ++ [tok] else acc)
      else if c = squoteC then shlexRun rest .squote tok quoted acc
      else if c = '"' then shlexRun rest .dquote tok quoted acc
      else if c = bslashC then shlexRun rest .escWord tok quoted acc
      else shlexRun rest .word (tok.push c) quoted acc
    | .squote =>
      if c = squoteC then shlexRun rest .word tok true acc
      else shlexRun rest .squote (tok.push c) quoted acc
    | .dquote =>
      if c = '"' then shlexRun rest .word tok true acc
      else if c = bslashC then shlexRun rest .escDquote tok quoted acc
      else shlexRun rest .dquote (tok.push c) quoted acc
    | .escWord => shlexRun rest .word (tok.push c) quoted acc
    | .escDquote =>
      if c = bslashC ∨ c = '"' then shlexRun rest .dquote (tok.push c) quoted acc
      else shlexRun rest .dquote ((tok.push bslashC).push c) quoted acc

/-- `shlex.split(s)` in POSIX mode; `.error ()` models the raised
`ValueError`. -/
def shlexSplit (s : String) : Except Unit (List String) :=
  shlexRun s.data .ws "" false []

/-! ## `parse_command` (smalld_click.py lines 135–141) -/

/-- The command remainder `command.strip()[len(prefix):].lstrip()`
computed by `parse_command`. -/
def restAfter (pfx command : String) : String :=
  pyLstrip (String.mk ((pyStrip command).data.drop pfx.length))

/-- `parse_command(prefix, command)` (lines 135–141).  Returns
`(None, [])` when the prefix does not match or nothing remains after
it; otherwise tokenizes with `shlex.split` — whose `ValueError`
propagates, modelled by `.error ()` — and returns
`(args[0], args[1:])`.  (`args` is provably nonempty there because the
remainder is nonempty and starts with a non-whitespace character, so
`args.head?` is `some args[0]`.) -/
def parse_command (pfx command : String) : Except Unit (Option String × List String) :=
  let cmd := restAfter pfx command
  if ¬ startswith command pfx ∨ cmd = "" then .ok (none, [])
  else
    match shlexSplit cmd with
    | .error e => .error e
    | .ok args => .ok (args.head?, args.tail)

/-! ## Messages and the pending-conversation registry

An inbound message carries `msg["content"]`, `msg["author"]["id"]`,
`msg["channel_id"]`.  `SmallDCliRunner.conversations` is a Python dict
keyed by `(user_id, channel_id)` whose values are `Completable`
handles; handles are represented by identifiers (`Nat`), their
synchronization behavior is modelled separately below. -/

/-- An inbound message (fields of the Python message dict used by the
runner). -/
structure Msg where
  content : String
  author_id : String
  channel_id : String
  deriving DecidableEq

/-- A conversation key `(user_id, channel_id)`. -/
abbrev Key := String × String

/-- The key of a message, as computed in `on_message` (lines 103–106). -/
def msgKey (m : Msg) : Key := (m.author_id, m.channel_id)

/-- Python `d[k]` lookup (first matching binding; dicts never hold two
bindings of one key, which `keysNodup` records). -/
def dictGet {α : Type} : List (Key × α) → Key → Option α
  | [], _ => none
  | (k', v) :: rest, k => if k' = k then some v else dictGet rest k

/-- Python `d.pop(k, None)`: the removed value, if any, and the
remaining dict. -/
def dictPop {α : Type} : List (Key × α) → Key → Option α × List (Key × α)
  | [], _ => (none, [])
  | (k', v) :: rest, k =>
    if k' = k then (some v, rest)
    else ((dictPop rest k).1, (k', v) :: (dictPop rest k).2)

/-- Python `d[k] = v`: replaces the binding of `k` if present
(last writer wins), otherwise appends it. -/
def dictSet {α : Type} : List (Key × α) → Key → α → List (Key × α)
  | [], k, v => [(k, v)]
  | (k', v') :: rest, k, v =>
    if k' = k then (k, v) :: rest else (k', v') :: dictSet rest k v

/-- The dict representation invariant: every key is bound at most
once. -/
abbrev keysNodup {α : Type} (d : List (Key × α)) : Prop :=
  (d.map Prod.fst).Nodup

/-! ## `SmallDCliRunner` (lines 85–132) -/

/-- The runner state used by the dispatch path: the configured prefix,
the root command's name (`self.cli.name`), and the
`conversations` dict mapping keys to pending `Completable` handles. -/
structure RunnerState where
  pfx : String
  cliName : String
  conversations : List (Key × Nat)
  deriving DecidableEq

/-- `add_pending(user_id, channel_id)` (lines 126–129): stores a fresh
`Completable` (here the caller supplies its identifier `handle`) under
the key, overwriting any previous entry, and returns it. -/
def add_pending (st : RunnerState) (user_id channel_id : String) (handle : Nat) :
    RunnerState × Nat :=
  ({ st with conversations := dictSet st.conversations (user_id, channel_id) handle },
   handle)

/-- `remove_pending(user_id, channel_id)` (lines 131–132):
`self.conversations.pop((user_id, channel_id), None)`. -/
def remove_pending (st : RunnerState) (user_id channel_id : String) :
    RunnerState × Option Nat :=
  let p := dictPop st.conversations (user_id, channel_id)
  ({ st with conversations := p.2 }, p.1)

/-- What `on_message` did with an inbound message:
`resolved handle m` — a pending handle was popped and
`handle.complete_with(msg)` was called, then the handler returned;
`noMatch` — the parsed name differs from `self.cli.name` (or parsing
yielded `None`), the handler returned with no effect;
`submitted args m` — `self.executor.submit(self.handle_command, msg, args)`;
`raised` — `shlex.split` raised `ValueError`, which propagates out of
`on_message`. -/
inductive MsgAction where
  | resolved (handle : Nat) (m : Msg)
  | noMatch
  | submitted (args : List String) (m : Msg)
  | raised
  deriving DecidableEq

/-- `on_message(msg)` (lines 101–115): first tries to resolve a pending
conversation for the message's key; only otherwise parses the content
and, when the name matches the root command, submits
`handle_command`. -/
def on_message (st : RunnerState) (m : Msg) : RunnerState × MsgAction :=
  let rp := remove_pending st m.author_id m.channel_id
  match rp.2 with
  | some handle => (rp.1, .resolved handle m)
  | none =>
    match parse_command st.pfx m.content with
    | .error _ => (rp.1, .raised)
    | .ok (name, args) =>
      if name = some st.cliName then (rp.1, .submitted args m)
      else (rp.1, .noMatch)

/-! ## `SmallDCliRunnerContext` (lines 17–79)

The context owns the echo buffer (`StringIO`), the reply channel and
the privacy flag.  The transport is modelled by two ledgers recorded
in the state: `sends` for `POST /channels/<id>/messages` (channel id
and content) and `dms` for `POST /users/@me/channels` (recipient
id). -/

/-- Per-invocation conversation context plus the outbound-transport
ledgers. -/
structure ConvCtx where
  message : Msg
  channel_id : String
  user_id : String
  buffer : String
  is_safe : Bool
  sends : List (String × String)
  dms : List String
  deriving DecidableEq

/-- `SmallDCliRunnerContext.__init__` (lines 18–26): channel and user
come from the originating message, the buffer starts empty, `is_safe`
is `False`. -/
def ConvCtx.ofMessage (m : Msg) : ConvCtx :=
  { message := m
    channel_id := m.channel_id
    user_id := m.author_id
    buffer := ""
    is_safe := false
    sends := []
    dms := [] }

/-- `flush` (lines 52–59): read the buffer, replace it with a fresh
empty one, return if the content strips to empty, otherwise post the
content to the current channel. -/
def ConvCtx.flush (c : ConvCtx) : ConvCtx :=
  let content := c.buffer
  let c1 := { c with buffer := "" }
  if pyStrip content = "" then c1
  else { c1 with sends := c1.sends ++ [(c1.channel_id, content)] }

/-- The context state at the instant `flush` attempts its
`smalld.post` and the post raises: the buffer was already replaced by
a fresh `StringIO` (line 54), and no send was recorded. -/
def ConvCtx.flushSendRaises (c : ConvCtx) : ConvCtx :=
  { c with buffer := "" }

/-- `say(message, nl, flush)` (lines 38–41): `click.echo` appends the
message (plus a newline when `nl`) to the echo buffer, then optionally
flushes. -/
def ConvCtx.say (c : ConvCtx) (message : String) (nl fl : Bool) : ConvCtx :=
  let c1 := { c with buffer := c.buffer ++ message ++ (if nl then "\n" else "") }
  if fl then c1.flush else c1

/-- `ensure_safe` (lines 28–36): a no-op when `is_safe` already holds;
otherwise create a private channel with the user (`privChan` is the id
the transport returns), switch the reply channel to it and set
`is_safe`. -/
def ConvCtx.ensure_safe (c : ConvCtx) (privChan : String) : ConvCtx :=
  if c.is_safe then c
  else
    { c with
      dms := c.dms ++ [c.user_id]
      channel_id := privChan
      is_safe := true }

/-- `ask(text, hide_input, ...)` escalation step (lines 43–46):
`ensure_safe` is invoked exactly when `hide_input` is set, before the
prompt is issued through `click_prompt`. -/
def ConvCtx.askEscalation (c : ConvCtx) (hide_input : Bool) (privChan : String) : ConvCtx :=
  if hide_input then c.ensure_safe privChan else c

/-- `wait_for_message` (lines 61–68): register a pending handle under
`(self.user_id, self.channel_id)`, then block on `handle.wait`.
`waitOk` is the value `handle.wait(self.timeout)` returned and
`received` the message `handle.result` then holds (their
synchronization semantics is `compStep` below).  On success the
context's current message is updated and the content returned; on
timeout the pending entry is removed and `TimeoutError` is raised
(`.error ()`). -/
def wait_for_message (st : RunnerState) (c : ConvCtx) (handle : Nat)
    (waitOk : Bool) (received : Msg) :
    (RunnerState × ConvCtx) × Except Unit String :=
  let st1 := (add_pending st c.user_id c.channel_id handle).1
  if waitOk then ((st1, { c with message := received }), .ok received.content)
  else (((remove_pending st1 c.user_id c.channel_id).1, c), .error ())

/-! ## `handle_command` / `managed_click_execution` (lines 117–156)

`cli.make_context` + `cli.invoke` are external (click); their outcome
is one of the five cases the wrapper distinguishes.  `c` is the
conversation-context state at the moment the invocation attempt
finished (the command may have said/flushed during execution). -/

/-- Outcome of the click invocation inside `handle_command`'s `with`
body. -/
inductive InvokeResult where
  | ok
  | usageError (e : String)
  | exited
  | timedOut
  | fault
  deriving DecidableEq

/-- `managed_click_execution` (lines 144–156): `ClickException`s are
shown — `e.show()` goes through the patched `echo`, so the error text
is appended to the echo buffer, with a newline, and nothing is
flushed; `Exit`/`Abort`, `TimeoutError` and any other exception are
absorbed without touching the context. -/
def managed_click_execution (c : ConvCtx) (r : InvokeResult) : ConvCtx :=
  match r with
  | .ok => c
  | .usageError e => c.say ("Error: " ++ e) true false
  | .exited => c
  | .timedOut => c
  | .fault => c

/-- The tail of `handle_command` (lines 117–124): when `cli.invoke`
returns normally the body's last statement `echo(flush=True, nl=False)`
flushes the buffer; when it raises, control goes to
`managed_click_execution`'s handlers and the trailing `echo` is
skipped.  Neither `click.Context.__exit__` nor the `ExitStack` calls
`SmallDCliRunnerContext.__exit__`, so no other flush happens. -/
def handle_command_end (c : ConvCtx) (r : InvokeResult) : ConvCtx :=
  match r with
  | .ok => c.say "" false true
  | _ => managed_click_execution c r

/-! ## `Completable` (lines 159–176)

The Python class holds a bare `threading.Condition` and `_result`;
there is no completed flag.  `wait` is `self._condition.wait(timeout)`
with no predicate: it returns `True` iff a `notify` is delivered while
the caller is blocked — a `notify` issued when nobody is waiting is
discarded.  The event model below captures exactly that. -/

/-- State of one `Completable` together with its (single) waiter:
`result` is `self._result`; `waiting` holds while a thread is blocked
in `self._condition.wait`; `ret` is the value that `wait` call
returned, once it has. -/
structure CompState where
  result : Option Msg
  waiting : Bool
  ret : Option Bool
  deriving DecidableEq

/-- Events of a `Completable` execution: the waiter enters
`_condition.wait`; the wait's timeout expires; another thread runs
`complete_with(m)` (store the result, `notify`). -/
inductive CompEv where
  | waitBegin
  | timeoutExpire
  | completeWith (m : Msg)
  deriving DecidableEq

/-- Semantics of one event against a `Completable`.  `completeWith`
sets `_result` and notifies: a blocked waiter wakes and its `wait`
returns `True`; with no blocked waiter the notification is lost
(`threading.Condition` keeps no memory of it).  `timeoutExpire` makes
a still-blocked waiter's `wait` return `False`. -/
def compStep (s : CompState) : CompEv → CompState
  | .waitBegin => { s with waiting := true }
  | .timeoutExpire =>
    if s.waiting then { s with waiting := false, ret := some false } else s
  | .completeWith m =>
    if s.waiting then { result := some m, waiting := false, ret := some true }
    else { s with result := some m }

/-- Run a schedule of events from the freshly-constructed state
(`__init__`, lines 160–162: no result, nobody waiting). -/
def compRun (evs : List CompEv) : CompState :=
  evs.foldl compStep { result := none, waiting := false, ret := none }

/-! ## Concrete sample data for evaluations -/

/-- A sample inbound message. -/
def mHello : Msg := { content := "++hello", author_id := "u", channel_id := "ch" }

/-- A conversation context holding buffered output that has not been
flushed yet (as after a command echoed without flushing). -/
def partialCtx : ConvCtx :=
  { message := mHello
    channel_id := "ch"
    user_id := "u"
    buffer := "partial output\n"
    is_safe := false
    sends := []
    dms := [] }

/-- A conversation context whose buffer holds only whitespace. -/
def wsCtx : ConvCtx := { partialCtx with buffer := " \n\t" }

example : shlexSplit "command argument --opt=option" =
    .ok ["command", "argument", "--opt=option"] := rfl

example : shlexSplit "a 'b c' d" = .ok ["a", "b c", "d"] := rfl

example : shlexSplit "a \"b \\\" c\"" = .ok ["a", "b \" c"] := rfl

example : shlexSplit "cmd 'oops" = .error () := rfl

example : shlexSplit "x ''" = .ok ["x", ""] := rfl

example : parse_command "++" "++hello world" = .ok (some "hello", ["world"]) := rfl

example : parse_command "++" "  ++hello" = .ok (none, []) := rfl

example : parse_command "++" "++   " = .ok (none, []) := rfl

example : parse_command "++" "++hello 'oops" = .error () := rfl

/-! ## Dictionary lemmas -/

theorem dictPop_fst {α : Type} (d : List (Key × α)) (k : Key) :
    (dictPop d k).1 = dictGet d k := by
  induction d with
  | nil => rfl
  | cons kv rest ih =>
    obtain ⟨k', v⟩ := kv
    by_cases h : k' = k
    · simp [dictPop, dictGet, h]
    · simp [dictPop, dictGet, h, ih]

theorem dictPop_snd_of_none {α : Type} (d : List (Key × α)) (k : Key)
    (h : dictGet d k = none) : (dictPop d k).2 = d := by
  induction d with
  | nil => rfl
  | cons kv rest ih =>
    obtain ⟨k', v⟩ := kv
    by_cases hk : k' = k
    · simp [dictGet, hk] at h
    · simp only [dictGet, if_neg hk] at h
      simp [dictPop, hk, ih h]

theorem dictPop_snd_sublist {α : Type} (d : List (Key × α)) (k : Key) :
    List.Sublist (dictPop d k).2 d := by
  induction d with
  | nil => exact List.Sublist.refl _
  | cons kv rest ih =>
    obtain ⟨k', v⟩ := kv
    by_cases h : k' = k
    · simp only [dictPop, if_pos h]
      exact List.Sublist.cons _ (List.Sublist.refl _)
    · simp only [dictPop, if_neg h]
      exact List.Sublist.cons₂ _ ih

theorem dictGet_eq_none_of_not_mem {α : Type} (d : List (Key × α)) (k : Key)
    (h : k ∉ d.map Prod.fst) : dictGet d k = none := by
  induction d with
  | nil => rfl
  | cons kv rest ih =>
    obtain ⟨k', v⟩ := kv
    simp only [List.map_cons, List.mem_cons] at h
    push_neg at h
    simp only [dictGet]
    rw [if_neg fun hk => h.1 hk.symm, ih h.2]

theorem dictPop_cons_eq {α : Type} (k : Key) (v : α) (rest : List (Key × α)) :
    dictPop ((k, v) :: rest) k = (some v, rest) := by
  simp [dictPop]

theorem dictPop_cons_ne {α : Type} (a k : Key) (v : α) (rest : List (Key × α))
    (h : a ≠ k) :
    dictPop ((a, v) :: rest) k = ((dictPop rest k).1, (a, v) :: (dictPop rest k).2) := by
  simp [dictPop, h]

theorem dictGet_cons_eq {α : Type} (k : Key) (v : α) (rest : List (Key × α)) :
    dictGet ((k, v) :: rest) k = some v := by
  simp [dictGet]

theorem dictGet_cons_ne {α : Type} (a k : Key) (v : α) (rest : List (Key × α))
    (h : a ≠ k) : dictGet ((a, v) :: rest) k = dictGet rest k := by
  simp [dictGet, h]

theorem dictSet_cons_eq {α : Type} (k : Key) (w v : α) (rest : List (Key × α)) :
    dictSet ((k, w) :: rest) k v = (k, v) :: rest := by
  simp [dictSet]

theorem dictSet_cons_ne {α : Type} (a k : Key) (w v : α) (rest : List (Key × α))
    (h : a ≠ k) : dictSet ((a, w) :: rest) k v = (a, w) :: dictSet rest k v := by
  simp [dictSet, h]

theorem dictGet_pop_self {α : Type} (d : List (Key × α)) (k : Key)
    (h : keysNodup d) : dictGet (dictPop d k).2 k = none := by
  induction d with
  | nil => rfl
  | cons kv rest ih =>
    obtain ⟨k', v⟩ := kv
    simp only [keysNodup, List.map_cons, List.nodup_cons] at h
    by_cases hk : k' = k
    · rw [hk] at h ⊢
      rw [dictPop_cons_eq]
      exact dictGet_eq_none_of_not_mem rest k h.1
    · rw [dictPop_cons_ne k' k v rest hk, dictGet_cons_ne k' k v _ hk]
      exact ih h.2

theorem dictGet_pop_other {α : Type} (d : List (Key × α)) (k k' : Key)
    (h : k' ≠ k) : dictGet (dictPop d k).2 k' = dictGet d k' := by
  induction d with
  | nil => rfl
  | cons kv rest ih =>
    obtain ⟨a, v⟩ := kv
    by_cases ha : a = k
    · rw [ha, dictPop_cons_eq, dictGet_cons_ne k k' v rest fun hk => h hk.symm]
    · rw [dictPop_cons_ne a k v rest ha]
      by_cases ha' : a = k'
      · rw [ha', dictGet_cons_eq, dictGet_cons_eq]
      · rw [dictGet_cons_ne a k' v _ ha', dictGet_cons_ne a k' v rest ha']
        exact ih

theorem dictGet_set_self {α : Type} (d : List (Key × α)) (k : Key) (v : α) :
    dictGet (dictSet d k v) k = some v := by
  induction d with
  | nil => exact dictGet_cons_eq k v []
  | cons kv rest ih =>
    obtain ⟨a, w⟩ := kv
    by_cases ha : a = k
    · rw [ha, dictSet_cons_eq, dictGet_cons_eq]
    · rw [dictSet_cons_ne a k w v rest ha, dictGet_cons_ne a k w _ ha]
      exact ih

theorem dictGet_set_other {α : Type} (d : List (Key × α)) (k k' : Key) (v : α)
    (h : k' ≠ k) : dictGet (dictSet d k v) k' = dictGet d k' := by
  induction d with
  | nil => exact dictGet_cons_ne k k' v [] fun hk => h hk.symm
  | cons kv rest ih =>
    obtain ⟨a, w⟩ := kv
    by_cases ha : a = k
    · rw [ha, dictSet_cons_eq,
        dictGet_cons_ne k k' v rest fun hk => h hk.symm,
        dictGet_cons_ne k k' w rest fun hk => h hk.symm]
    · rw [dictSet_cons_ne a k w v rest ha]
      by_cases ha' : a = k'
      · rw [ha', dictGet_cons_eq, dictGet_cons_eq]
      · rw [dictGet_cons_ne a k' w _ ha', dictGet_cons_ne a k' w rest ha']
        exact ih

theorem mem_keys_set {α : Type} (d : List (Key × α)) (k x : Key) (v : α) :
    x ∈ (dictSet d k v).map Prod.fst → x ∈ d.map Prod.fst ∨ x = k := by
  induction d with
  | nil =>
    intro h
    simp only [dictSet, List.map_cons, List.map_nil, List.mem_singleton] at h
    exact Or.inr h
  | cons kv rest ih =>
    obtain ⟨a, w⟩ := kv
    intro h
    by_cases ha : a = k
    · rw [ha, dictSet_cons_eq] at h
      simp only [List.map_cons, List.mem_cons] at h
      rcases h with h | h
      · exact Or.inr h
      · exact Or.inl (List.mem_cons_of_mem _ h)
    · rw [dictSet_cons_ne a k w v rest ha] at h
      simp only [List.map_cons, List.mem_cons] at h
      rcases h with h | h
      · exact Or.inl (h ▸ List.mem_cons_self _ _)
      · rcases ih h with h' | h'
        · exact Or.inl (List.mem_cons_of_mem _ h')
        · exact Or.inr h'

theorem keysNodup_set {α : Type} (d : List (Key × α)) (k : Key) (v : α)
    (h : keysNodup d) : keysNodup (dictSet d k v) := by
  induction d with
  | nil => simp [dictSet, keysNodup]
  | cons kv rest ih =>
    obtain ⟨a, w⟩ := kv
    simp only [keysNodup, List.map_cons, List.nodup_cons] at h
    by_cases ha : a = k
    · rw [ha] at h ⊢
      rw [dictSet_cons_eq]
      simp only [keysNodup, List.map_cons, List.nodup_cons]
      exact h
    · rw [dictSet_cons_ne a k w v rest ha]
      simp only [keysNodup, List.map_cons, List.nodup_cons]
      refine ⟨fun hmem => ?_, ih h.2⟩
      rcases mem_keys_set rest k a v hmem with h' | h'
      · exact h.1 h'
      · exact ha h'

theorem keysNodup_pop {α : Type} (d : List (Key × α)) (k : Key)
    (h : keysNodup d) : keysNodup (dictPop d k).2 :=
  ((dictPop_snd_sublist d k).map Prod.fst).nodup h

/-! ## `on_message` dispatch lemmas -/

theorem on_message_of_get_some (st : RunnerState) (m : Msg) (handle : Nat)
    (h : dictGet st.conversations (msgKey m) = some handle) :
    on_message st m =
      ({ st with conversations := (dictPop st.conversations (msgKey m)).2 },
        .resolved handle m) := by
  simp only [msgKey] at h
  have hp : (dictPop st.conversations (m.author_id, m.channel_id)).1 = some handle := by
    rw [dictPop_fst]; exact h
  simp only [on_message, remove_pending, msgKey, hp]

theorem remove_pending_of_none (st : RunnerState) (uid cid : String)
    (h : dictGet st.conversations (uid, cid) = none) :
    remove_pending st uid cid = (st, none) := by
  simp only [remove_pending, dictPop_fst, h, dictPop_snd_of_none _ _ h]

theorem on_message_of_get_none (st : RunnerState) (m : Msg)
    (h : dictGet st.conversations (msgKey m) = none) :
    (on_message st m).1 = st ∧
      ((on_message st m).2 = .raised ∨ (on_message st m).2 = .noMatch ∨
        ∃ args, (on_message st m).2 = .submitted args m) := by
  simp only [msgKey] at h
  have hp : (dictPop st.conversations (m.author_id, m.channel_id)).1 = none := by
    rw [dictPop_fst]; exact h
  simp only [on_message, remove_pending, hp, dictPop_snd_of_none _ _ h]
  rcases hpc : parse_command st.pfx m.content with e | na
  · simp
  · obtain ⟨name, args⟩ := na
    by_cases hn : name = some st.cliName <;> simp [hn]

/-! ## Flush lemmas -/

theorem setBuffer_empty_eq_self (c : ConvCtx) (h : c.buffer = "") :
    { c with buffer := "" } = c := by
  cases c with
  | mk message channel_id user_id buffer is_safe sends dms =>
    cases h
    rfl

theorem flush_of_empty_buffer (c : ConvCtx) (h : c.buffer = "") :
    ConvCtx.flush c = c := by
  have h2 : pyStrip c.buffer = "" := by rw [h]; rfl
  simp only [ConvCtx.flush, if_pos h2]
  exact setBuffer_empty_eq_self c h

/-! ## Claim theorems -/

/-- C1: for every inbound message whose `(user, channel)` key has a
pending entry in the registry, `on_message` removes and completes that
entry's signal with the message and returns, performing no
command-prefix matching and no task submission — in particular also
when the message text matches the command prefix. -/
theorem c1_pending_resolution_priority (st : RunnerState) (m : Msg) (handle : Nat)
    (hget : dictGet st.conversations (msgKey m) = some handle)
    (hnd : keysNodup st.conversations) :
    (on_message st m).2 = MsgAction.resolved handle m ∧
    dictGet (on_message st m).1.conversations (msgKey m) = none := by
  rw [on_message_of_get_some st m handle hget]
  exact ⟨rfl, dictGet_pop_self _ _ hnd⟩

/-- C1 witness: a message whose text matches the prefix and root
command but whose key is pending is resolved, not dispatched. -/
theorem c1_pending_resolution_priority_witness :
    (on_message { pfx := "++", cliName := "hello", conversations := [(("u", "ch"), 7)] }
        mHello).2 = MsgAction.resolved 7 mHello ∧
    dictGet (on_message { pfx := "++", cliName := "hello", conversations := [(("u", "ch"), 7)] }
        mHello).1.conversations (msgKey mHello) = none :=
  c1_pending_resolution_priority _ mHello 7 (by decide) (by decide)

/-- C2 (code bug): `handle_command` flushes the echo buffer only on
the normal-return path (`echo(flush=True, nl=False)` is the last
statement of the `with` body).  On the usage-error, early-exit,
timeout and fault paths the buffered output is never sent: the `with`
statement enters the `click.Context` objects, never
`SmallDCliRunnerContext`, so its flushing `__exit__` does not run. -/
theorem c2_flush_not_on_every_exit_path :
    (handle_command_end partialCtx InvokeResult.fault).sends = [] ∧
    (handle_command_end partialCtx InvokeResult.fault).buffer = "partial output\n" ∧
    (handle_command_end partialCtx InvokeResult.timedOut).sends = [] ∧
    (handle_command_end partialCtx InvokeResult.exited).sends = [] ∧
    (handle_command_end partialCtx (InvokeResult.usageError "no such option")).sends = [] ∧
    (handle_command_end partialCtx InvokeResult.ok).sends = [("ch", "partial output\n")] :=
  ⟨rfl, rfl, rfl, rfl, rfl, rfl⟩

/-- C3 counterexample: a message that passes the pending and prefix
checks but fails POSIX tokenization (unterminated quote) makes
`on_message` raise (`shlex.split`'s `ValueError` propagates): no task
is submitted and no usage error is reported. -/
theorem c3_counterexample_tokenization_raises :
    on_message { pfx := "++", cliName := "hello", conversations := [] }
        { content := "++hello 'oops", author_id := "u", channel_id := "ch" } =
      ({ pfx := "++", cliName := "hello", conversations := [] }, MsgAction.raised) := rfl

/-- C3 (amended): for every inbound message with no pending entry that
passes the prefix check with a nonempty remainder failing POSIX
tokenization, `on_message` raises `ValueError` out of the handler —
the command invocation does not proceed, and no usage error is
reported — leaving the registry unchanged. -/
theorem c3_amended_tokenization_failure_raises (st : RunnerState) (m : Msg)
    (hpend : dictGet st.conversations (msgKey m) = none)
    (hpre : startswith m.content st.pfx = true)
    (hrest : restAfter st.pfx m.content ≠ "")
    (htok : shlexSplit (restAfter st.pfx m.content) = Except.error ()) :
    on_message st m = (st, MsgAction.raised) := by
  simp only [msgKey] at hpend
  have hp : (dictPop st.conversations (m.author_id, m.channel_id)).1 = none := by
    rw [dictPop_fst]; exact hpend
  have hsnd := dictPop_snd_of_none st.conversations (m.author_id, m.channel_id) hpend
  have hparse : parse_command st.pfx m.content = Except.error () := by
    simp only [parse_command]
    rw [if_neg fun hor => Or.elim hor (fun hns => hns hpre) hrest, htok]
  simp only [on_message, remove_pending, hp, hsnd, hparse]

/-- C3 amended witness: unterminated double quote. -/
theorem c3_amended_tokenization_failure_raises_witness :
    on_message { pfx := "++", cliName := "hello", conversations := [] }
        { content := "++hello \"bad", author_id := "u", channel_id := "ch" } =
      ({ pfx := "++", cliName := "hello", conversations := [] }, MsgAction.raised) :=
  c3_amended_tokenization_failure_raises _ _ (by decide) (by decide) (by decide) rfl

/-- C4 (code bug): `Completable.wait` is a bare `Condition.wait` with
no completed flag, so a completion delivered before the waiter blocks
is lost: `complete_with(m)` followed by `wait(timeout)` has the wait
block until the timeout and return `False`, although `result` already
holds `m`.  Completion delivered while blocked does return `True`. -/
theorem c4_wait_misses_prior_completion :
    (compRun [CompEv.completeWith mHello, CompEv.waitBegin, CompEv.timeoutExpire]).ret =
      some false ∧
    (compRun [CompEv.completeWith mHello, CompEv.waitBegin, CompEv.timeoutExpire]).result =
      some mHello ∧
    (compRun [CompEv.waitBegin, CompEv.completeWith mHello]).ret = some true ∧
    (compRun [CompEv.waitBegin, CompEv.completeWith mHello]).result = some mHello :=
  ⟨rfl, rfl, rfl, rfl⟩

/-- C5: a reply wait that times out ends with `TimeoutError`, sends no
user-facing error text (the `TimeoutError` arm of
`managed_click_execution` is `pass`), and leaves no pending entry for
the `(user, channel)` key, so a later message with the same key is not
resolved as a stale reply but goes to command matching. -/
theorem c5_reply_timeout_clears_pending (st : RunnerState) (c : ConvCtx)
    (handle sig : Nat) (mr m2 : Msg)
    (hnd : keysNodup st.conversations)
    (hk : msgKey m2 = (c.user_id, c.channel_id)) :
    (wait_for_message st c handle false mr).2 = Except.error () ∧
    dictGet (wait_for_message st c handle false mr).1.1.conversations
      (c.user_id, c.channel_id) = none ∧
    (on_message (wait_for_message st c handle false mr).1.1 m2).2 ≠
      MsgAction.resolved sig m2 ∧
    (handle_command_end c InvokeResult.timedOut).sends = c.sends := by
  have hconv : (wait_for_message st c handle false mr).1.1.conversations =
      (dictPop (dictSet st.conversations (c.user_id, c.channel_id) handle)
        (c.user_id, c.channel_id)).2 := rfl
  have hnone : dictGet (wait_for_message st c handle false mr).1.1.conversations
      (c.user_id, c.channel_id) = none := by
    rw [hconv]
    exact dictGet_pop_self _ _ (keysNodup_set _ _ _ hnd)
  refine ⟨rfl, hnone, ?_, rfl⟩
  have h2 : dictGet (wait_for_message st c handle false mr).1.1.conversations
      (msgKey m2) = none := by
    rw [hk]; exact hnone
  rcases on_message_of_get_none _ m2 h2 with ⟨_, h3 | h3 | ⟨args, h3⟩⟩ <;> simp [h3]

/-- C5 witness. -/
theorem c5_reply_timeout_clears_pending_witness :
    dictGet (wait_for_message { pfx := "++", cliName := "hello", conversations := [] }
        (ConvCtx.ofMessage mHello) 5 false mHello).1.1.conversations
      ("u", "ch") = none :=
  (c5_reply_timeout_clears_pending _ (ConvCtx.ofMessage mHello) 5 9 mHello mHello
    (by decide) rfl).2.1

/-- C6: `flush` issues no outbound send when the buffered content is
empty or whitespace-only, and issues exactly one send — of the
buffered content to the current channel — exactly when some
non-whitespace character is buffered. -/
theorem c6_flush_sends_iff_nonblank (c : ConvCtx) :
    (pyStrip c.buffer = "" → (ConvCtx.flush c).sends = c.sends) ∧
    (pyStrip c.buffer ≠ "" →
      (ConvCtx.flush c).sends = c.sends ++ [(c.channel_id, c.buffer)] ∧
      (ConvCtx.flush c).sends ≠ c.sends) := by
  constructor
  · intro h
    simp [ConvCtx.flush, h]
  · intro h
    have hs : (ConvCtx.flush c).sends = c.sends ++ [(c.channel_id, c.buffer)] := by
      simp [ConvCtx.flush, h]
    refine ⟨hs, ?_⟩
    rw [hs]
    intro heq
    have hlen := congrArg List.length heq
    simp only [List.length_append, List.length_cons, List.length_nil] at hlen
    omega

/-- C6 witness: the whitespace-only buffer sends nothing, the
non-blank buffer sends its content. -/
theorem c6_flush_sends_iff_nonblank_witness :
    (ConvCtx.flush wsCtx).sends = [] ∧
    (ConvCtx.flush partialCtx).sends = [("ch", "partial output\n")] :=
  ⟨(c6_flush_sends_iff_nonblank wsCtx).1 (by decide),
   ((c6_flush_sends_iff_nonblank partialCtx).2 (by decide)).1⟩

/-- C7: `flush` resets the buffer to empty before the send is
attempted, so content is never sent twice: a second consecutive flush
is a no-op, and if the send raises (state `flushSendRaises`), the next
flush re-sends nothing. -/
theorem c7_flush_clears_buffer_before_send (c : ConvCtx) :
    (ConvCtx.flush c).buffer = "" ∧
    ConvCtx.flush (ConvCtx.flush c) = ConvCtx.flush c ∧
    (ConvCtx.flushSendRaises c).buffer = "" ∧
    ConvCtx.flush (ConvCtx.flushSendRaises c) = ConvCtx.flushSendRaises c ∧
    (ConvCtx.flush (ConvCtx.flushSendRaises c)).sends = c.sends := by
  have hb : (ConvCtx.flush c).buffer = "" := by
    simp only [ConvCtx.flush]
    by_cases h : pyStrip c.buffer = "" <;> simp [h]
  have hr : (ConvCtx.flushSendRaises c).buffer = "" := rfl
  have h2 := flush_of_empty_buffer _ hb
  have h4 := flush_of_empty_buffer _ hr
  refine ⟨hb, h2, hr, h4, ?_⟩
  rw [h4]
  rfl

/-- C8: the registry keeps at most one live entry per key:
registration overwrites the previous binding of its own key (last
writer wins) and preserves every other key's binding and the
no-duplicate-keys invariant; removal/resolution for a key removes and
completes only that key's signal, never another key's. -/
theorem c8_registry_key_isolation (reg : List (Key × Nat)) (k k' : Key) (v : Nat)
    (hne : k' ≠ k) :
    dictGet (dictSet reg k v) k = some v ∧
    dictGet (dictSet reg k v) k' = dictGet reg k' ∧
    dictGet (dictPop reg k).2 k' = dictGet reg k' ∧
    (keysNodup reg → keysNodup (dictSet reg k v)) ∧
    (keysNodup reg → keysNodup (dictPop reg k).2) ∧
    (∀ (st : RunnerState) (m : Msg) (handle : Nat),
      st.conversations = reg → msgKey m = k → dictGet reg k = some handle →
      (on_message st m).2 = MsgAction.resolved handle m ∧
      dictGet (on_message st m).1.conversations k' = dictGet reg k') := by
  refine ⟨dictGet_set_self reg k v, dictGet_set_other reg k k' v hne,
    dictGet_pop_other reg k k' hne, keysNodup_set reg k v, keysNodup_pop reg k, ?_⟩
  intro st m handle hst hkey hget
  have hget' : dictGet st.conversations (msgKey m) = some handle := by
    rw [hst, hkey]; exact hget
  rw [on_message_of_get_some st m handle hget']
  refine ⟨rfl, ?_⟩
  show dictGet (dictPop st.conversations (msgKey m)).2 k' = dictGet reg k'
  rw [hst, hkey]
  exact dictGet_pop_other reg k k' hne

/-- C8 witness: overwriting key `("u","ch")` does not touch key
`("u2","ch")`. -/
theorem c8_registry_key_isolation_witness :
    dictGet (dictSet [(("u2", "ch"), 2)] ("u", "ch") 7) ("u2", "ch") =
      dictGet [(("u2", "ch"), 2)] ("u2", "ch") :=
  (c8_registry_key_isolation [(("u2", "ch"), 2)] ("u", "ch") ("u2", "ch") 7
    (by decide)).2.1

/-- C9: privacy escalation is one-time and idempotent per context: the
first `ensure_safe` performs exactly one create-private-channel call
and switches the reply channel; any further escalation attempt (also
through `ask` with `hide_input`) is a no-op; subsequent flushes and
pending registrations use the escalated channel. -/
theorem c9_privacy_escalation_once (c : ConvCtx) (p q : String)
    (h : c.is_safe = false) :
    (ConvCtx.ensure_safe c p).channel_id = p ∧
    (ConvCtx.ensure_safe c p).is_safe = true ∧
    (ConvCtx.ensure_safe c p).dms = c.dms ++ [c.user_id] ∧
    ConvCtx.ensure_safe (ConvCtx.ensure_safe c p) q = ConvCtx.ensure_safe c p ∧
    ConvCtx.askEscalation (ConvCtx.ensure_safe c p) true q = ConvCtx.ensure_safe c p ∧
    (pyStrip (ConvCtx.ensure_safe c p).buffer ≠ "" →
      (ConvCtx.flush (ConvCtx.ensure_safe c p)).sends =
        (ConvCtx.ensure_safe c p).sends ++ [(p, (ConvCtx.ensure_safe c p).buffer)]) ∧
    (∀ (st : RunnerState) (handle : Nat),
      dictGet ((add_pending st (ConvCtx.ensure_safe c p).user_id
          (ConvCtx.ensure_safe c p).channel_id handle).1).conversations
        (c.user_id, p) = some handle) := by
  have he : ConvCtx.ensure_safe c p =
      { c with dms := c.dms ++ [c.user_id], channel_id := p, is_safe := true } := by
    simp [ConvCtx.ensure_safe, h]
  refine ⟨by rw [he], by rw [he], by rw [he], ?_, ?_, ?_, ?_⟩
  · rw [he]
    simp [ConvCtx.ensure_safe]
  · rw [he]
    simp [ConvCtx.askEscalation, ConvCtx.ensure_safe]
  · intro hb
    simp only [ConvCtx.flush, if_neg hb]
    rw [he]
  · intro st handle
    show dictGet (dictSet st.conversations
        ((ConvCtx.ensure_safe c p).user_id, (ConvCtx.ensure_safe c p).channel_id)
        handle) (c.user_id, p) = some handle
    rw [he]
    exact dictGet_set_self _ _ _

/-- C9 witness. -/
theorem c9_privacy_escalation_once_witness :
    (ConvCtx.ensure_safe (ConvCtx.ofMessage mHello) "dm1").channel_id = "dm1" ∧
    ConvCtx.ensure_safe (ConvCtx.ensure_safe (ConvCtx.ofMessage mHello) "dm1") "dm2" =
      ConvCtx.ensure_safe (ConvCtx.ofMessage mHello) "dm1" :=
  ⟨(c9_privacy_escalation_once (ConvCtx.ofMessage mHello) "dm1" "dm2" rfl).1,
   (c9_privacy_escalation_once (ConvCtx.ofMessage mHello) "dm1" "dm2" rfl).2.2.2.1⟩

/-- C10: an inbound message with no pending entry whose content after
stripping and prefix removal is empty, or whose first token differs
from the root command's name, makes `on_message` return with no task
submission, no send, and no state change. -/
theorem c10_unmatched_message_noop (st : RunnerState) (m : Msg)
    (hpend : dictGet st.conversations (msgKey m) = none)
    (hc : restAfter st.pfx m.content = "" ∨
      (startswith m.content st.pfx = true ∧
        ∃ args : List String, shlexSplit (restAfter st.pfx m.content) = Except.ok args ∧
          args.head? ≠ some st.cliName)) :
    on_message st m = (st, MsgAction.noMatch) := by
  simp only [msgKey] at hpend
  have hp : (dictPop st.conversations (m.author_id, m.channel_id)).1 = none := by
    rw [dictPop_fst]; exact hpend
  have hsnd := dictPop_snd_of_none st.conversations (m.author_id, m.channel_id) hpend
  have hparse : ∃ name args, parse_command st.pfx m.content = Except.ok (name, args) ∧
      name ≠ some st.cliName := by
    rcases hc with hrest | ⟨hpre, args, hargs, hhead⟩
    · refine ⟨none, [], ?_, by simp⟩
      simp only [parse_command]
      rw [if_pos (Or.inr hrest)]
    · by_cases hrest : restAfter st.pfx m.content = ""
      · refine ⟨none, [], ?_, by simp⟩
        simp only [parse_command]
        rw [if_pos (Or.inr hrest)]
      · refine ⟨args.head?, args.tail, ?_, hhead⟩
        simp only [parse_command]
        rw [if_neg fun hor => Or.elim hor (fun hns => hns hpre) hrest, hargs]
  rcases hparse with ⟨name, args, hpc, hname⟩
  simp only [on_message, remove_pending, hp, hsnd, hpc]
  rw [if_neg hname]

/-- C10 witness: a message whose first token is not the root command's
name is dropped with no state change. -/
theorem c10_unmatched_message_noop_witness :
    on_message { pfx := "++", cliName := "hello", conversations := [] }
        { content := "++goodbye now", author_id := "u", channel_id := "ch" } =
      ({ pfx := "++", cliName := "hello", conversations := [] }, MsgAction.noMatch) :=
  c10_unmatched_message_noop _ _ (by decide)
    (Or.inr ⟨rfl, ["goodbye", "now"], rfl, by decide⟩)

end SmalldClick
